import Mathlib

/-!
Verification of the bookshelf migration engine (book authors, book topics,
paper authors, papers merges) against its natural-language specification.

The Python sources under `scripts_migration/` and `database_utils/` are
shallowly embedded below.  Conventions of the embedding:

* A pandas cell read with `dtype=str` is `Option String`; `none` models a
  missing value (`NaN`), `some s` a string cell.
* Python `str.strip()` is `pyStrip` (drop whitespace at both ends),
  `str.lower()` is `pyLower` (character-wise lowering),
  `str.replace(oneChar, oneChar)` is `pyMapChar`,
  `re.sub(r"\s+", " ", s)` is `foldWS` (each maximal whitespace run
  becomes one space).
* `uuid.uuid5(ns, name)` is a pure deterministic hash of its two string
  arguments; it is modelled by the deterministic function `uuid5`.  Only
  its determinism is used, never collision-freedom.
* `uuid.uuid4()` draws a fresh random identifier per call; a run of a
  script that calls it is modelled with an explicit supply
  `draw : Nat → String` (the run's sequence of random draws), so that the
  dependence of the output on the draws is visible in the model.
-/

/-! ## Python string primitives -/

/-- Python's one-character `str.replace(a, b)`: replace every occurrence
of the character `a` by the character `b`. -/
def pyMapChar (a b : Char) (s : String) : String :=
  ⟨s.data.map (fun c => if c = a then b else c)⟩

/-- Character-list version of Python `str.strip()`: remove whitespace
from both ends. -/
def pyStripCL (l : List Char) : List Char :=
  ((l.dropWhile Char.isWhitespace).reverse.dropWhile Char.isWhitespace).reverse

/-- Python `str.strip()`. -/
def pyStrip (s : String) : String := ⟨pyStripCL s.data⟩

/-- Python `str.lower()`, character-wise. -/
def pyLower (s : String) : String := ⟨s.data.map Char.toLower⟩

/-- Auxiliary for whitespace folding: `prevWs` records whether the
previous character was part of a whitespace run already emitted. -/
def foldWSGo : Bool → List Char → List Char
  | _, [] => []
  | prevWs, c :: cs =>
    if c.isWhitespace then
      if prevWs then foldWSGo true cs else ' ' :: foldWSGo true cs
    else c :: foldWSGo false cs

/-- Python `re.sub(r"\s+", " ", s)`: every maximal whitespace run becomes
a single space. -/
def foldWS (s : String) : String := ⟨foldWSGo false s.data⟩

/-- `uuid.uuid5(ns, name)`: a pure deterministic function of namespace
and name.  The SHA-1 internals are irrelevant to every claim (only
determinism is ever used), so the hash is modelled by a deterministic
string encoding. -/
def uuid5 (ns name : String) : String := "uuid5:" ++ ns ++ ":" ++ name

/-! ## Basic lemmas about the string primitives -/

theorem dropWhile_head_not (p : Char → Bool) (l : List Char) (c : Char) (cs : List Char)
    (h : l.dropWhile p = c :: cs) : p c = false := by
  induction l with
  | nil => simp [List.dropWhile] at h
  | cons a as ih =>
    by_cases hpa : p a
    · rw [List.dropWhile_cons_of_pos hpa] at h
      exact ih h
    · rw [List.dropWhile_cons_of_neg hpa] at h
      cases h
      exact Bool.of_not_eq_true hpa

theorem mem_pyStripCL {c : Char} {l : List Char} (h : c ∈ pyStripCL l) : c ∈ l := by
  unfold pyStripCL at h
  rw [List.mem_reverse] at h
  have h1 := (List.dropWhile_sublist _).mem h
  rw [List.mem_reverse] at h1
  exact (List.dropWhile_sublist _).mem h1

/-- If the strip of `l` is nonempty then it contains a non-whitespace
character. -/
theorem pyStripCL_ne_nil_witness {l : List Char} (h : pyStripCL l ≠ []) :
    ∃ c ∈ pyStripCL l, c.isWhitespace = false := by
  unfold pyStripCL at *
  rcases hd : (l.dropWhile Char.isWhitespace).reverse.dropWhile Char.isWhitespace with _ | ⟨c, cs⟩
  · exact absurd (by rw [hd]; rfl) h
  · refine ⟨c, ?_, dropWhile_head_not _ _ _ _ hd⟩
    rw [List.mem_reverse]
    exact List.mem_cons_self _ _

/-- Stripping an all-whitespace character list yields the empty list. -/
theorem pyStripCL_eq_nil_of_all_ws {l : List Char}
    (h : ∀ c ∈ l, c.isWhitespace = true) : pyStripCL l = [] := by
  by_contra hne
  obtain ⟨c, hc, hcws⟩ := pyStripCL_ne_nil_witness hne
  have := h c (mem_pyStripCL hc)
  rw [this] at hcws
  simp at hcws

/-- If stripping yields the empty list, every character was whitespace. -/
theorem all_ws_of_pyStripCL_eq_nil {l : List Char}
    (h : pyStripCL l = []) : ∀ c ∈ l, c.isWhitespace = true := by
  unfold pyStripCL at h
  rw [List.reverse_eq_nil_iff, List.dropWhile_eq_nil_iff] at h
  have hdrop : ∀ c ∈ l.dropWhile Char.isWhitespace, c.isWhitespace = true := by
    intro c hc
    exact h c (by rw [List.mem_reverse]; exact hc)
  intro c hc
  rw [← List.takeWhile_append_dropWhile (p := Char.isWhitespace) (l := l)] at hc
  rcases List.mem_append.1 hc with h1 | h2
  · exact List.mem_takeWhile_imp h1
  · exact hdrop c h2

/-- Stripping a stripped string yields the empty string only if the
stripped string was already empty. -/
theorem pyStrip_pyStrip_eq_empty {s : String} (h : pyStrip (pyStrip s) = "") :
    pyStrip s = "" := by
  unfold pyStrip at *
  have hdata : pyStripCL (pyStripCL s.data) = [] := congrArg String.data h
  have hall := all_ws_of_pyStripCL_eq_nil hdata
  have hnil : pyStripCL s.data = [] := by
    by_contra hne
    obtain ⟨c, hc, hcws⟩ := pyStripCL_ne_nil_witness hne
    rw [hall c hc] at hcws
    simp at hcws
  rw [hnil]

/-! ## Generic deduplication by key

`pandas.DataFrame.drop_duplicates(subset=key)` keeps the first row of
each key in input order; the topic merge implements the same loop by
hand with a `seen` set.  Both are modelled by `dedupByKey`. -/

/-- Deduplication worker: `seen` holds the keys already emitted. -/
def dedupByKeyGo (key : α → String) : List String → List α → List α
  | _, [] => []
  | seen, r :: rs =>
    if key r ∈ seen then dedupByKeyGo key seen rs
    else r :: dedupByKeyGo key (key r :: seen) rs

/-- `drop_duplicates(subset=key)`: keep the first row of each key. -/
def dedupByKey (key : α → String) (l : List α) : List α :=
  dedupByKeyGo key [] l

theorem dedupByKeyGo_subset (key : α → String) (seen : List String) (l : List α)
    {r : α} (h : r ∈ dedupByKeyGo key seen l) : r ∈ l := by
  induction l generalizing seen with
  | nil => simp [dedupByKeyGo] at h
  | cons a as ih =>
    rw [dedupByKeyGo] at h
    by_cases hk : key a ∈ seen
    · rw [if_pos hk] at h
      exact List.mem_cons_of_mem _ (ih _ h)
    · rw [if_neg hk] at h
      rw [List.mem_cons] at h
      rcases h with h | h
      · exact h ▸ List.mem_cons_self _ _
      · exact List.mem_cons_of_mem _ (ih _ h)

theorem dedupByKey_subset (key : α → String) (l : List α) {r : α}
    (h : r ∈ dedupByKey key l) : r ∈ l :=
  dedupByKeyGo_subset key [] l h

/-- The keys surviving `dedupByKeyGo` are exactly the input keys not
already seen. -/
theorem mem_keys_dedupByKeyGo (key : α → String) (seen : List String) (l : List α)
    (k : String) :
    k ∈ (dedupByKeyGo key seen l).map key ↔ k ∈ l.map key ∧ k ∉ seen := by
  induction l generalizing seen with
  | nil => simp [dedupByKeyGo]
  | cons a as ih =>
    rw [dedupByKeyGo]
    by_cases hk : key a ∈ seen
    · rw [if_pos hk]
      simp only [List.map_cons, List.mem_cons, ih]
      constructor
      · rintro ⟨h1, h2⟩
        exact ⟨Or.inr h1, h2⟩
      · rintro ⟨h1 | h1, h2⟩
        · exact absurd (h1 ▸ hk) h2
        · exact ⟨h1, h2⟩
    · rw [if_neg hk]
      simp only [List.map_cons, List.mem_cons, ih, List.mem_cons]
      constructor
      · rintro (h | ⟨h1, h2⟩)
        · exact ⟨Or.inl h, h ▸ hk⟩
        · exact ⟨Or.inr h1, fun hs => h2 (Or.inr hs)⟩
      · rintro ⟨h1 | h1, h2⟩
        · exact Or.inl h1
        · by_cases hek : k = key a
          · exact Or.inl hek
          · exact Or.inr ⟨h1, fun hs => (by
              rcases hs with hs | hs
              · exact hek hs
              · exact h2 hs)⟩

theorem mem_keys_dedupByKey (key : α → String) (l : List α) (k : String) :
    k ∈ (dedupByKey key l).map key ↔ k ∈ l.map key := by
  rw [dedupByKey, mem_keys_dedupByKeyGo]
  simp

/-- The number of rows kept by `dedupByKeyGo` is the number of distinct
unseen keys in the input. -/
theorem length_dedupByKeyGo (key : α → String) (seen : List String) (l : List α) :
    (dedupByKeyGo key seen l).length =
      ((l.map key).toFinset \ seen.toFinset).card := by
  induction l generalizing seen with
  | nil => simp [dedupByKeyGo]
  | cons a as ih =>
    rw [dedupByKeyGo]
    by_cases hk : key a ∈ seen
    · rw [if_pos hk, ih]
      have : insert (key a) (as.map key).toFinset \ seen.toFinset =
          (as.map key).toFinset \ seen.toFinset :=
        Finset.insert_sdiff_of_mem _ (List.mem_toFinset.2 hk)
      simp [this]
    · rw [if_neg hk]
      simp only [List.length_cons, ih, List.map_cons, List.toFinset_cons]
      have h1 : insert (key a) (as.map key).toFinset \ seen.toFinset =
          insert (key a) ((as.map key).toFinset \ seen.toFinset) :=
        Finset.insert_sdiff_of_not_mem _ (fun hs => hk (List.mem_toFinset.1 hs))
      rw [h1, Finset.sdiff_insert]
      set X := (as.map key).toFinset \ seen.toFinset with hX
      by_cases hmem : key a ∈ X
      · rw [Finset.insert_eq_self.2 hmem, Finset.card_erase_add_one hmem]
      · rw [Finset.erase_eq_of_not_mem hmem, Finset.card_insert_of_not_mem hmem]


theorem length_dedupByKey (key : α → String) (l : List α) :
    (dedupByKey key l).length = (l.map key).toFinset.card := by
  rw [dedupByKey, length_dedupByKeyGo]
  simp

/-! ## `scripts_migration/book_authors_merge.py`

Merges the `Authors` tables of the two sources and rewrites the
`BookAuthors` link tables.  Canonical ids come from `uuid.uuid4()`
(modelled by the run's random-draw supply `draw : Nat → String`). -/

/-- One raw `Authors.csv` row (`dtype=str`). -/
structure AuthorRow where
  authorID : Option String
  firstName : Option String
  middleName : Option String
  lastName : Option String
deriving DecidableEq

/-- One raw `BookAuthors.csv` row (`dtype=str`). -/
structure BALinkRow where
  bookAuthorID : Option String
  bookID : Option String
  authorID : Option String
deriving DecidableEq

/-- `clean_str`: `series.fillna('').astype(str).str.strip()`. -/
def clean_str (v : Option String) : String := pyStrip (v.getD "")

/-- An `Authors` row after `process_names` added `source_db`,
`final_first_name`, `final_last_name` and `key`. -/
structure ProcAuthor where
  source_db : String
  authorID : Option String
  firstName : Option String
  middleName : Option String
  lastName : Option String
  final_first_name : String
  final_last_name : String
  key : String
deriving DecidableEq

/-- `process_names` on one row (the script applies it vectorised):
combined first name is `(FirstName + ' ' + MiddleName)` stripped with
internal whitespace runs folded; the key is
`combined.lower() + "|" + LastName.lower()`. -/
def process_names (src : String) (r : AuthorRow) : ProcAuthor :=
  let f := clean_str r.firstName
  let m := clean_str r.middleName
  let l := clean_str r.lastName
  let combined := foldWS (pyStrip (f ++ " " ++ m))
  { source_db := src
    authorID := r.authorID
    firstName := r.firstName
    middleName := r.middleName
    lastName := r.lastName
    final_first_name := combined
    final_last_name := l
    key := pyLower combined ++ "|" ++ pyLower l }

/-- `is_valid_id`: false on NaN, empty-after-strip, or a case-insensitive
`"nan"`. -/
def is_valid_id (v : Option String) : Bool :=
  match v with
  | none => false
  | some s =>
    let t := pyStrip s
    decide (t ≠ "") && decide (pyLower t ≠ "nan")

/-- Both sources' accepted author rows: `process_names` applied per
source, rows with the empty key `"|"` dropped, sources concatenated in
precedence order (`db1` before `db2`). -/
def baProcessed (a1 a2 : List AuthorRow) : List ProcAuthor :=
  ((a1.map (process_names "db1")).filter (fun r => r.key ≠ "|")) ++
    ((a2.map (process_names "db2")).filter (fun r => r.key ≠ "|"))

/-- `unique_authors = all_authors.drop_duplicates(subset='key')`. -/
def baUnique (a1 a2 : List AuthorRow) : List ProcAuthor :=
  dedupByKey ProcAuthor.key (baProcessed a1 a2)

/-- `unique_authors['book_author_id'] = [str(uuid.uuid4()) for _ in ...]`:
the i-th unique author receives the run's i-th random draw. -/
def baUniqueWithIds (a1 a2 : List AuthorRow) (draw : Nat → String) :
    List (ProcAuthor × String) :=
  (baUnique a1 a2).enum.map (fun p => (p.2, draw p.1))

/-- `key_to_uuid` lookup (the merge on `key` against a table whose keys
are unique). -/
def baKeyToUuid (tbl : List (ProcAuthor × String)) (k : String) : Option String :=
  (tbl.find? (fun p => p.1.key == k)).map Prod.snd

/-- One `author_id_mapping` row. -/
structure BAMapRow where
  source_db : String
  old_author_id : Option String
  old_first_name : Option String
  old_middle_name : Option String
  old_last_name : Option String
  key : String
  new_book_author_id : Option String
deriving DecidableEq

/-- Step 3 of `main`: one mapping row per accepted source row, via a left
merge with `key_to_uuid` on `key` (the right side's keys are unique, so
the merge is a per-row lookup). -/
def baMapping (a1 a2 : List AuthorRow) (draw : Nat → String) : List BAMapRow :=
  (baProcessed a1 a2).map (fun r =>
    { source_db := r.source_db
      old_author_id := r.authorID
      old_first_name := r.firstName
      old_middle_name := r.middleName
      old_last_name := r.lastName
      key := r.key
      new_book_author_id := baKeyToUuid (baUniqueWithIds a1 a2 draw) r.key })

/-- `skipped_dbN = (~valid_mask_N).sum()`. -/
def baSkipped (links : List BALinkRow) : Nat :=
  (links.filter (fun l => is_valid_id l.authorID = false)).length

/-- `baN = baN[valid_mask_N]`. -/
def baValidLinks (links : List BALinkRow) : List BALinkRow :=
  links.filter (fun l => is_valid_id l.authorID)

/-- Step 4 of `main`: the left merge of a source's valid link rows with
that source's mapping, joining `AuthorID` against `old_author_id`.  An
unmatched link row survives once with no mapping attached; a link row
matching several mapping rows (duplicate `old_author_id`) is duplicated,
exactly as `pandas.merge(..., how='left')` behaves. -/
def baJoinOne (mapSrc : List BAMapRow) (l : BALinkRow) :
    List (BALinkRow × Option BAMapRow) :=
  match mapSrc.filter (fun m => m.old_author_id == l.authorID) with
  | [] => [(l, none)]
  | ms => ms.map (fun m => (l, some m))

def baJoin (links : List BALinkRow) (mapSrc : List BAMapRow) :
    List (BALinkRow × Option BAMapRow) :=
  links.flatMap (baJoinOne mapSrc)

/-- The `new_book_author_id` column of a joined row (`NaN` when the link
row found no mapping row). -/
def baJoinedNewId (p : BALinkRow × Option BAMapRow) : Option String :=
  p.2.bind (fun m => m.new_book_author_id)

/-- `orphaned_dbN = enriched['new_book_author_id'].isna().sum()`. -/
def baOrphaned (links : List BALinkRow) (mapSrc : List BAMapRow) : Nat :=
  ((baJoin (baValidLinks links) mapSrc).filter
    (fun p => baJoinedNewId p = none)).length

/-- The kept enriched rows: joined rows whose `new_book_author_id` is
present (the script filters the `isna` rows out when any exist; when none
exist the filter is the identity, so the model filters always). -/
def baEnriched (links : List BALinkRow) (mapSrc : List BAMapRow) :
    List (BALinkRow × Option BAMapRow) :=
  (baJoin (baValidLinks links) mapSrc).filter
    (fun p => (baJoinedNewId p).isSome)

/-- The mapping rows of one source (`mapping[mapping['source_db'] == s]`). -/
def baMapSrc (a1 a2 : List AuthorRow) (draw : Nat → String) (s : String) :
    List BAMapRow :=
  (baMapping a1 a2 draw).filter (fun m => m.source_db == s)

/-! ## `scripts_migration/pauthors_merge.py`

Merges the `PAuthors` tables and rewrites the `PapersAuthors` link
tables.  Canonical ids come from `uuid.uuid5` over a fixed namespace
(content-addressed), with a fallback key for rows without a name. -/

/-- The `uuid5` namespace `uuid5(NAMESPACE_DNS, "bookshelf.thesis.pauthors")`. -/
def NS_PAUTHORS : String := uuid5 "NAMESPACE_DNS" "bookshelf.thesis.pauthors"

/-- One raw `PAuthors.csv` row. -/
structure PAuthorRow where
  authorID : Option String
  firstName : Option String
  lastName : Option String
deriving DecidableEq

/-- One raw `PapersAuthors.csv` row. -/
structure PALinkRow where
  papersAuthorsID : Option String
  paperID : Option String
  authorID : Option String
deriving DecidableEq

/-- A `PAuthors` row after this script's `process_names`. -/
structure ProcPAuthor where
  source_db : String
  authorID : Option String
  firstName : Option String
  lastName : Option String
  final_first_name : String
  final_last_name : String
  key : String
deriving DecidableEq

/-- `process_names` of `pauthors_merge.py`: no middle name, no whitespace
folding; key is `first.lower() + "|" + last.lower()`. -/
def pa_process_names (src : String) (r : PAuthorRow) : ProcPAuthor :=
  let f := clean_str r.firstName
  let l := clean_str r.lastName
  { source_db := src
    authorID := r.authorID
    firstName := r.firstName
    lastName := r.lastName
    final_first_name := f
    final_last_name := l
    key := pyLower f ++ "|" ++ pyLower l }

/-- `generate_pauthor_uuid`: content-addressed id from the final name
when any name part is non-blank, else a deterministic fallback from
`(source_db, AuthorID)`.  A NaN `AuthorID` renders as `"nan"` in the
f-string. -/
def generate_pauthor_uuid (r : ProcPAuthor) : String :=
  let first := pyStrip r.final_first_name
  let last := pyStrip r.final_last_name
  if last ≠ "" ∨ first ≠ "" then
    uuid5 NS_PAUTHORS ("lastname:" ++ last ++ ":firstname:" ++ first)
  else
    uuid5 NS_PAUTHORS ("fallback:" ++ r.source_db ++ ":" ++ r.authorID.getD "nan")

/-- Accepted `PAuthors` rows of both sources (empty keys dropped,
precedence order). -/
def paProcessed (pa1 pa2 : List PAuthorRow) : List ProcPAuthor :=
  ((pa1.map (pa_process_names "db1")).filter (fun r => r.key ≠ "|")) ++
    ((pa2.map (pa_process_names "db2")).filter (fun r => r.key ≠ "|"))

/-- `unique_pauthors = all_pauthors.drop_duplicates(subset='key')`. -/
def paUnique (pa1 pa2 : List PAuthorRow) : List ProcPAuthor :=
  dedupByKey ProcPAuthor.key (paProcessed pa1 pa2)

/-- `unique_pauthors['author_id'] = unique_pauthors.apply(generate_pauthor_uuid)`. -/
def paUniqueWithIds (pa1 pa2 : List PAuthorRow) : List (ProcPAuthor × String) :=
  (paUnique pa1 pa2).map (fun r => (r, generate_pauthor_uuid r))

/-! ## `scripts_migration/papers_merge.py`

Merges the `Papers` tables, deduplicating by (normalized title,
normalized year), and aggregates each dedup group's canonical author ids
into one array.  Only the columns the merge logic reads (`PaperID`,
`Title`, `Year`) are modelled; the remaining display and boolean columns
are carried through the merge unchanged and play no role in any claim. -/

/-- The `uuid5` namespace `uuid5(NAMESPACE_DNS, "bookshelf.thesis.papers")`. -/
def NS_PAPERS : String := uuid5 "NAMESPACE_DNS" "bookshelf.thesis.papers"

/-- One raw `Papers.csv` row (modelled columns). -/
structure PaperRow where
  paperID : Option String
  title : Option String
  year : Option String
deriving DecidableEq

/-- `str(x)` on a cell: a NaN cell renders as the string `"nan"`. -/
def pyAstype (v : Option String) : String := v.getD "nan"

/-- `str(x or "")` on a cell: NaN is truthy in Python, so it also renders
as `"nan"`; a plain string is unchanged (`"" or ""` is `""`). -/
def pyOrEmpty (v : Option String) : String := v.getD "nan"

/-- A `Papers` row after filtering, with `source_db`, `authors_ids`,
and the dedup key columns attached. -/
structure ProcPaper where
  source_db : String
  paperID : Option String
  title : Option String
  year : Option String
  authors_ids : List String
  dedup_key : String
deriving DecidableEq

/-- `normalize_title`: `fillna("").astype(str).str.strip().str.lower()`. -/
def normalize_title (t : Option String) : String := pyLower (pyStrip (t.getD ""))

/-- `p["norm_year"] = p["Year"].fillna("").astype(str).str.strip()`. -/
def pmNormYear (y : Option String) : String := pyStrip (y.getD "")

/-- The empty-title mask `p["Title"].isna() | (p["Title"].str.strip() == "")`. -/
def pmEmptyTitle (t : Option String) : Bool :=
  match t with
  | none => true
  | some s => decide (pyStrip s = "")

/-- `generate_paper_uuid`: content-addressed id from
`(lowercased stripped title, stripped year)` when the title is
non-blank, else a deterministic fallback from `(source_db, PaperID)`. -/
def generate_paper_uuid (r : ProcPaper) : String :=
  let title := pyStrip (pyOrEmpty r.title)
  let year := pyStrip (pyOrEmpty r.year)
  if title ≠ "" then
    uuid5 NS_PAPERS ("title:" ++ pyLower title ++ ":year:" ++ year)
  else
    uuid5 NS_PAPERS ("fallback:" ++ r.source_db ++ ":" ++ r.paperID.getD "nan")

/-- `build_author_lookup` accumulator: append `aid` to `pid`'s bucket,
creating the bucket if needed and skipping ids already present. -/
def alAdd (acc : List (String × List String)) (pid aid : String) :
    List (String × List String) :=
  match acc.find? (fun e => e.1 == pid) with
  | none => acc ++ [(pid, [aid])]
  | some e =>
    if aid ∈ e.2 then acc
    else acc.map (fun e2 => if e2.1 == pid then (e2.1, e2.2 ++ [aid]) else e2)

/-- `build_author_lookup`: fold the enriched `PapersAuthors` rows
(`(PaperID, new_author_id)` cells) into a per-paper list of distinct
canonical author ids, in first-seen order. -/
def build_author_lookup (rows : List (Option String × Option String)) :
    List (String × List String) :=
  rows.foldl (fun acc row =>
    let pid := pyStrip (pyAstype row.1)
    let aid := pyStrip (pyAstype row.2)
    if pid ≠ "" ∧ aid ≠ "" ∧ aid ≠ "nan" then alAdd acc pid aid else acc) []

/-- `lookup.get(key, [])` on the author-lookup dict. -/
def alGet (l : List (String × List String)) (k : String) : List String :=
  ((l.find? (fun e => e.1 == k)).map Prod.snd).getD []

/-- Accepted `Papers` rows: valid `PaperID`, then non-blank title. -/
def pmAccept (p : List PaperRow) : List PaperRow :=
  (p.filter (fun r => is_valid_id r.paperID)).filter
    (fun r => pmEmptyTitle r.title = false)

/-- Attach `source_db`, `authors_ids` (from the source's lookup) and the
dedup key to one accepted row. -/
def pmProc (src : String) (lk : List (String × List String)) (r : PaperRow) :
    ProcPaper :=
  { source_db := src
    paperID := r.paperID
    title := r.title
    year := r.year
    authors_ids := alGet lk (pyStrip (pyAstype r.paperID))
    dedup_key := normalize_title r.title ++ "|" ++ pmNormYear r.year }

/-- `all_papers`: both sources' accepted rows with columns attached,
in precedence order. -/
def pmProcessed (p1 p2 : List PaperRow)
    (lk1 lk2 : List (String × List String)) : List ProcPaper :=
  ((pmAccept p1).map (pmProc "db1" lk1)) ++ ((pmAccept p2).map (pmProc "db2" lk2))

/-- `merge_authors_for_duplicates` on one dedup group: a singleton group
is returned unchanged; otherwise the first row (source precedence) is the
base and `authors_ids` becomes the duplicate-free union over every group
member.  Python materialises the union as `list(set(...))`, whose
enumeration order is implementation-defined; the model enumerates the
same duplicate-free union via `List.dedup`. -/
def merge_authors_for_duplicates (g : List ProcPaper) : Option ProcPaper :=
  match g with
  | [] => none
  | base :: rest =>
    some (if rest = [] then base
      else { base with
        authors_ids := ((base :: rest).flatMap ProcPaper.authors_ids).dedup })

/-- `all_papers.groupby("dedup_key").apply(merge_authors_for_duplicates)`:
one merged row per distinct dedup key (pandas iterates groups in sorted
key order; the model iterates them in first-occurrence order, which
affects no claim). -/
def pmUnique (rows : List ProcPaper) : List ProcPaper :=
  ((rows.map ProcPaper.dedup_key).dedup).filterMap
    (fun k => merge_authors_for_duplicates
      (rows.filter (fun r => r.dedup_key == k)))

/-- `unique_papers["paper_id"] = unique_papers.apply(generate_paper_uuid)`. -/
def pmUniqueWithIds (rows : List ProcPaper) : List (ProcPaper × String) :=
  (pmUnique rows).map (fun r => (r, generate_paper_uuid r))

/-! ## `scripts_migration/book_topic_merge.py`

Merges the `Topic` tables (dedup by normalized topic name, fresh
`uuid.uuid4()` ids) and enriches the `BookTopic` link tables with topic
names.  Unlike the author merges, rows whose `TopicID` has no entry in
the topic map are only warned about and KEPT in the enriched output, and
the id mapping is emitted for every raw topic row. -/

/-- One raw `Topic.csv` row. -/
structure TopicRow where
  topicID : Option String
  topic : Option String
deriving DecidableEq

/-- One raw `BookTopic.csv` row. -/
structure BTLinkRow where
  bookTopicID : Option String
  topicID : Option String
  bookID : Option String
deriving DecidableEq

/-- One enriched `BookTopic` row (`TopicName` column added; NaN when the
`TopicID` was not found in the topic map). -/
structure BTEnrichedRow where
  bookTopicID : Option String
  topicID : Option String
  bookID : Option String
  topicName : Option String
deriving DecidableEq

/-- Python dict lookup on an association list built by iteration:
later bindings win. -/
def dictGet (l : List (String × α)) (k : String) : Option α :=
  (l.reverse.find? (fun e => e.1 == k)).map Prod.snd

/-- `create_topic_id_map`: `dict(zip(df["TopicID"].astype(str), df["Topic"]))`. -/
def create_topic_id_map (topics : List TopicRow) : List (String × Option String) :=
  topics.map (fun r => (pyAstype r.topicID, r.topic))

/-- The incomplete mask of `enrich_book_topics`:
`isna | (astype(str).strip() == "") | (astype(str) == "nan")`.
Note the last test is the exact string `"nan"`, not case-insensitive. -/
def btIncomplete (v : Option String) : Bool :=
  decide (v = none) || decide (pyStrip (pyAstype v) = "") ||
    decide (pyAstype v = "nan")

/-- `enrich_book_topics`: drop-and-count the incomplete rows, then map
topic names onto the remaining rows.  Rows whose `TopicID` misses the
map are kept with a NaN `TopicName` (the script only prints a warning
about them).  Returns `(enriched_df, incomplete_count)`. -/
def enrich_book_topics (links : List BTLinkRow)
    (topicMap : List (String × Option String)) : List BTEnrichedRow × Nat :=
  let incomplete_count := (links.filter (fun l => btIncomplete l.topicID)).length
  let kept := links.filter (fun l => btIncomplete l.topicID = false)
  (kept.map (fun l =>
    { bookTopicID := l.bookTopicID
      topicID := l.topicID
      bookID := l.bookID
      topicName := (dictGet topicMap (pyAstype l.topicID)).join }),
   incomplete_count)

/-- `normalize_topic_name`: `"" `on NaN, else `str(name).strip().lower()`. -/
def normalize_topic_name (v : Option String) : String :=
  match v with
  | none => ""
  | some s => pyLower (pyStrip s)

/-- One `merged_topics` record. -/
structure MergedTopic where
  original_topic : Option String
  normalized_topic : String
  source : String
  original_topic_id : Option String
deriving DecidableEq

/-- The dedup loop of `merge_and_deduplicate_topics`: emit a record for
the first occurrence of each non-empty normalized name. -/
def merge_topics_go : List String → List (String × TopicRow) → List MergedTopic
  | _, [] => []
  | seen, (src, r) :: rs =>
    let n := normalize_topic_name r.topic
    if n ≠ "" ∧ n ∉ seen then
      { original_topic := r.topic
        normalized_topic := n
        source := src
        original_topic_id := r.topicID } :: merge_topics_go (n :: seen) rs
    else merge_topics_go seen rs

/-- `merge_and_deduplicate_topics`: db1 rows first, then db2, one record
per distinct non-empty normalized topic name. -/
def merge_and_deduplicate_topics (t1 t2 : List TopicRow) : List MergedTopic :=
  merge_topics_go [] (t1.map (fun r => ("db1", r)) ++ t2.map (fun r => ("db2", r)))

/-- `generate_new_book_topic_table`: one `(book_topic_id, topic_name)`
row per merged topic, ids drawn fresh from `uuid.uuid4()` (the run's
draw supply). -/
def generate_new_book_topic_table (merged : List MergedTopic)
    (draw : Nat → String) : List (String × Option String) :=
  merged.enum.map (fun p => (draw p.1, p.2.original_topic))

/-- The `normalized_to_uuid` dict of `create_topic_id_mapping`: the i-th
merged topic's normalized name maps to the i-th new uuid (`.loc[idx]`
walks the shared positional index). -/
def topicNormToUuid (merged : List MergedTopic) (draw : Nat → String) :
    List (String × String) :=
  merged.enum.map (fun p => (p.2.normalized_topic, draw p.1))

/-- One `topic_id_mapping.csv` row. -/
structure TopicMapRow where
  source_db : String
  old_topic_id : Option String
  old_topic_name : Option String
  new_book_topic_id : String
deriving DecidableEq

/-- `create_topic_id_mapping`: one mapping row for EVERY raw topic row of
both sources (empty-named rows included), with
`normalized_to_uuid.get(normalized, "")` as the new id. -/
def create_topic_id_mapping (t1 t2 : List TopicRow)
    (normToUuid : List (String × String)) : List TopicMapRow :=
  (t1.map (fun r =>
    { source_db := "db1"
      old_topic_id := r.topicID
      old_topic_name := r.topic
      new_book_topic_id := (dictGet normToUuid (normalize_topic_name r.topic)).getD "" })) ++
  (t2.map (fun r =>
    { source_db := "db2"
      old_topic_id := r.topicID
      old_topic_name := r.topic
      new_book_topic_id := (dictGet normToUuid (normalize_topic_name r.topic)).getD "" }))

/-! ## `database_utils/normalize.py` -/

/-- `normalize_value`: NaN to `""`; else replace CR and LF by spaces,
strip the ends, lowercase.  (No folding of internal whitespace runs.) -/
def normalize_value (v : Option String) : String :=
  match v with
  | none => ""
  | some s => pyLower (pyStrip (pyMapChar '\n' ' ' (pyMapChar '\r' ' ' s)))

/-- The spec's `normalize_field` (§4.1), for comparison with
`normalize_value`: null/NaN to empty string; else trim, fold internal
whitespace runs to a single space, case-fold. -/
def specNormalizeField (v : Option String) : String :=
  match v with
  | none => ""
  | some s => pyLower (foldWS (pyStrip s))

/-- The amended normalization contract: null/NaN to empty string; else
each CR and LF becomes one space, the ends are trimmed, and the result is
lowercased — internal whitespace runs are preserved, not folded. -/
def specNormalizeFieldNoFold (v : Option String) : String :=
  match v with
  | none => ""
  | some s =>
    ⟨(pyStripCL (s.data.map
        (fun c => if c = '\r' ∨ c = '\n' then ' ' else c))).map Char.toLower⟩

/-! ## Shared helper lemmas for the claim theorems -/

theorem exists_enumFrom_pair {α : Type _} (a : α) :
    ∀ (l : List α) (n : Nat), a ∈ l → ∃ p ∈ l.enumFrom n, p.2 = a
  | [], _, h => absurd h (List.not_mem_nil a)
  | b :: bs, n, h => by
    rw [List.mem_cons] at h
    rcases h with h | h
    · exact ⟨(n, b), List.mem_cons_self _ _, h.symm⟩
    · obtain ⟨p, hp, he⟩ := exists_enumFrom_pair a bs (n + 1) h
      exact ⟨p, List.mem_cons_of_mem _ hp, he⟩

theorem exists_enum_pair {α : Type _} {a : α} {l : List α} (h : a ∈ l) :
    ∃ p ∈ l.enum, p.2 = a :=
  exists_enumFrom_pair a l 0 h

/-- Under a duplicate-free key column, at most one row matches any key. -/
theorem length_filter_key_le_one {α β : Type _} [BEq β] [LawfulBEq β]
    (key : α → β) (v : β) :
    ∀ (l : List α), (l.map key).Nodup →
      (l.filter (fun a => key a == v)).length ≤ 1
  | [], _ => by simp
  | a :: as, h => by
    rw [List.map_cons, List.nodup_cons] at h
    obtain ⟨hna, hnd⟩ := h
    rw [List.filter_cons]
    by_cases hk : (key a == v) = true
    · rw [if_pos hk]
      have hnil : as.filter (fun x => key x == v) = [] := by
        rw [List.filter_eq_nil_iff]
        intro x hx hxv
        have hax : key a = key x := by rw [eq_of_beq hk, ← eq_of_beq hxv]
        exact hna (hax ▸ List.mem_map_of_mem key hx)
      simp [hnil]
    · rw [if_neg hk]
      exact length_filter_key_le_one key v as hnd

/-! ## Claim C7 -/

/-- C7 (counterexample): the claim says field normalization folds every
internal whitespace run to a single space; but `normalize_value "a  b"`
keeps the internal double space, so it differs from the spec's
`normalize_field` on that input. -/
theorem C7_counterexample_no_internal_fold :
    normalize_value (some "a  b") = "a  b" ∧
    specNormalizeField (some "a  b") = "a b" ∧
    normalize_value (some "a  b") ≠ specNormalizeField (some "a  b") := by
  refine ⟨by decide, by decide, by decide⟩

/-- C7 (amended): for every input value, `normalize_value` maps null/NaN
to the empty string, and otherwise replaces each CR and LF by one space,
trims leading/trailing whitespace, and lowercases; internal whitespace
runs are preserved, not folded. -/
theorem C7_amended_normalize_value_contract :
    ∀ v : Option String, normalize_value v = specNormalizeFieldNoFold v := by
  intro v
  cases v with
  | none => rfl
  | some s =>
    show pyLower (pyStrip (pyMapChar '\n' ' ' (pyMapChar '\r' ' ' s))) = _
    have hfun : ∀ c : Char,
        (fun c => if c = '\n' then ' ' else c)
          ((fun c => if c = '\r' then ' ' else c) c) =
        (fun c => if c = '\r' ∨ c = '\n' then ' ' else c) c := by
      intro c
      by_cases h1 : c = '\r'
      · subst h1; rfl
      · by_cases h2 : c = '\n'
        · subst h2; rfl
        · simp [h1, h2]
    show (⟨(pyStripCL (((s.data.map _).map _))).map Char.toLower⟩ : String) = _
    unfold specNormalizeFieldNoFold
    rw [List.map_map]
    have : (fun c => if c = '\n' then ' ' else c) ∘
        (fun c => if c = '\r' then ' ' else c) =
        (fun c => if c = '\r' ∨ c = '\n' then ' ' else c) := funext hfun
    rw [this]

/-! ## Claim C1 -/

/-- The Scenario A author row `("1", "John", " ", "Smith")`. -/
def johnSmithRow : AuthorRow :=
  { authorID := some "1", firstName := some "John"
    middleName := some " ", lastName := some "Smith" }

/-- C1 (code evaluated at the failing input): the book-authors merge
assigns canonical ids from the run's `uuid.uuid4()` draws, so the very
same input row receives different canonical ids under different runs'
draws — the canonical id is not a function of the canonical key content,
contradicting the claimed cross-run determinism. -/
theorem C1_book_authors_ids_vary_with_the_runs_draws :
    (baUniqueWithIds [johnSmithRow] [] (fun _ => "run1-id")).map Prod.snd
      = ["run1-id"] ∧
    (baUniqueWithIds [johnSmithRow] [] (fun _ => "run2-id")).map Prod.snd
      = ["run2-id"] ∧
    ("run1-id" : String) ≠ "run2-id" := by
  refine ⟨by decide, by decide, by decide⟩

/-! ## Claim C5 -/

/-- C5 (code evaluated at the failing input): `enrich_book_topics` KEEPS
a link row whose non-empty `TopicID` (`"999"`) has no entry in the topic
map — it stays in the enriched output with a NaN `TopicName` and nothing
is counted — contradicting the claim that every merge variant drops such
rows as orphans. -/
theorem C5_book_topic_merge_keeps_unmapped_link_rows :
    enrich_book_topics
        [{ bookTopicID := some "10", topicID := some "999", bookID := some "B1" }]
        [("1", some "AI")]
      = ([{ bookTopicID := some "10", topicID := some "999",
            bookID := some "B1", topicName := none }], 0) := by
  decide

/-! ## Claim C6 -/

/-- C6 (counterexample): the claim says a foreign key `"none"` is a
sentinel dropped as incomplete before lookup; but the author merges'
`is_valid_id` accepts `"none"`, so such a row reaches the mapping lookup
and is counted as an orphan (here: skipped = 0, orphaned = 1). -/
theorem C6_counterexample_none_is_not_a_sentinel :
    is_valid_id (some "none") = true ∧
    baSkipped [{ bookAuthorID := some "L1", bookID := some "B1",
                 authorID := some "none" }] = 0 ∧
    baOrphaned [{ bookAuthorID := some "L1", bookID := some "B1",
                  authorID := some "none" }] [] = 1 := by
  refine ⟨by decide, by decide, by decide⟩

/-! ## Claim C2 -/

/-- C2: for both author-type merges, the number of canonical entities
produced equals the number of distinct canonical keys among the accepted
rows (both sources concatenated, empty-key rows excluded), and every
accepted row's key is non-empty. -/
theorem C2_canonical_count_is_distinct_accepted_keys :
    ∀ (a1 a2 : List AuthorRow) (pa1 pa2 : List PAuthorRow),
      (baUnique a1 a2).length
          = ((baProcessed a1 a2).map ProcAuthor.key).toFinset.card ∧
      (∀ r ∈ baProcessed a1 a2, r.key ≠ "|") ∧
      (paUnique pa1 pa2).length
          = ((paProcessed pa1 pa2).map ProcPAuthor.key).toFinset.card ∧
      (∀ r ∈ paProcessed pa1 pa2, r.key ≠ "|") := by
  intro a1 a2 pa1 pa2
  refine ⟨length_dedupByKey _ _, ?_, length_dedupByKey _ _, ?_⟩
  · intro r hr
    rcases List.mem_append.1 hr with h | h <;>
      simpa using (List.mem_filter.1 h).2
  · intro r hr
    rcases List.mem_append.1 hr with h | h <;>
      simpa using (List.mem_filter.1 h).2

/-- A second Scenario A author row, from the other source, with the same
normalized name as `johnSmithRow`. -/
def johnSmithRow2 : AuthorRow :=
  { authorID := some "88", firstName := some "john"
    middleName := none, lastName := some "smith" }

/-- Witness for C2 at a concrete input: two accepted rows with equal
keys produce one canonical entity, and the key of an accepted row is
checked non-empty. -/
theorem C2_witness :
    (baUnique [johnSmithRow] [johnSmithRow2]).length
        = ((baProcessed [johnSmithRow] [johnSmithRow2]).map
            ProcAuthor.key).toFinset.card ∧
    (process_names "db1" johnSmithRow).key ≠ "|" := by
  have h := C2_canonical_count_is_distinct_accepted_keys
    [johnSmithRow] [johnSmithRow2] [] []
  exact ⟨h.1, h.2.1 (process_names "db1" johnSmithRow) (by decide)⟩

/-! ## Claim C3 -/

/-- C3: the book-authors merge emits exactly one mapping row per
accepted source row (non-winning duplicates included); every mapping
row's canonical id is the id of the produced canonical entity carrying
that row's own canonical key (the group winner); consequently any two
mapping rows with equal canonical keys — the non-winning duplicates and
their winner — carry the identical canonical id. -/
theorem C3_mapping_rows_complete_and_resolve :
    ∀ (a1 a2 : List AuthorRow) (draw : Nat → String),
      (baMapping a1 a2 draw).length = (baProcessed a1 a2).length ∧
      (∀ m ∈ baMapping a1 a2 draw,
        ∃ e ∈ baUniqueWithIds a1 a2 draw,
          e.1.key = m.key ∧ m.new_book_author_id = some e.2) ∧
      (∀ m1 ∈ baMapping a1 a2 draw, ∀ m2 ∈ baMapping a1 a2 draw,
        m1.key = m2.key →
          m1.new_book_author_id = m2.new_book_author_id) := by
  intro a1 a2 draw
  refine ⟨List.length_map _ _, ?_, ?_⟩
  · intro m hm
    obtain ⟨r, hr, hrm⟩ := List.mem_map.1 hm
    have hkey : r.key ∈ (baUnique a1 a2).map ProcAuthor.key := by
      unfold baUnique
      rw [mem_keys_dedupByKey]
      exact List.mem_map_of_mem _ hr
    obtain ⟨u, hu, huk⟩ := List.mem_map.1 hkey
    obtain ⟨p, hp, hpu⟩ := exists_enum_pair hu
    have htbl : (p.2, draw p.1) ∈ baUniqueWithIds a1 a2 draw := by
      unfold baUniqueWithIds
      exact List.mem_map.2 ⟨p, hp, rfl⟩
    cases hf : (baUniqueWithIds a1 a2 draw).find? (fun e => e.1.key == r.key) with
    | none =>
      exfalso
      have := List.find?_eq_none.1 hf _ htbl
      apply this
      show (p.2.key == r.key) = true
      rw [hpu, huk]
      exact beq_self_eq_true _
    | some e =>
      have hpe := List.find?_some hf
      have hek : e.1.key = r.key := eq_of_beq hpe
      refine ⟨e, List.mem_of_find?_eq_some hf, ?_, ?_⟩
      · rw [← hrm]
        exact hek
      · rw [← hrm]
        show baKeyToUuid (baUniqueWithIds a1 a2 draw) r.key = some e.2
        unfold baKeyToUuid
        rw [hf]
        rfl
  · intro m1 hm1 m2 hm2 hk
    obtain ⟨r1, _, hrm1⟩ := List.mem_map.1 hm1
    obtain ⟨r2, _, hrm2⟩ := List.mem_map.1 hm2
    have h1 : m1.new_book_author_id
        = baKeyToUuid (baUniqueWithIds a1 a2 draw) m1.key := by
      rw [← hrm1]
    have h2 : m2.new_book_author_id
        = baKeyToUuid (baUniqueWithIds a1 a2 draw) m2.key := by
      rw [← hrm2]
    rw [h1, h2, hk]

/-- Witness for C3 at a concrete input: the mapping row produced for
`johnSmithRow` resolves to the id of the canonical entity carrying its
own key. -/
theorem C3_witness :
    ∃ e ∈ baUniqueWithIds [johnSmithRow] [] (fun _ => "uuid-w"),
      e.1.key = (BAMapRow.mk "db1" (some "1") (some "John") (some " ")
        (some "Smith") "john|smith" (some "uuid-w")).key ∧
      (BAMapRow.mk "db1" (some "1") (some "John") (some " ") (some "Smith")
        "john|smith" (some "uuid-w")).new_book_author_id = some e.2 := by
  exact (C3_mapping_rows_complete_and_resolve [johnSmithRow] [] (fun _ => "uuid-w")).2.1
    (BAMapRow.mk "db1" (some "1") (some "John") (some " ") (some "Smith")
      "john|smith" (some "uuid-w")) (by decide)

/-! ## Claim C4 -/

/-- With a duplicate-free `old_author_id` column, one joined row comes
out per valid link row. -/
theorem baJoinOne_length {mapSrc : List BAMapRow}
    (h : (mapSrc.map BAMapRow.old_author_id).Nodup) (l : BALinkRow) :
    (baJoinOne mapSrc l).length = 1 := by
  cases hf : mapSrc.filter (fun m => m.old_author_id == l.authorID) with
  | nil => simp [baJoinOne, hf]
  | cons m ms' =>
    have hle := length_filter_key_le_one BAMapRow.old_author_id l.authorID mapSrc h
    rw [hf] at hle
    simp only [List.length_cons] at hle
    have hnil : ms' = [] :=
      List.eq_nil_of_length_eq_zero (Nat.le_zero.1 (Nat.succ_le_succ_iff.1 hle))
    subst hnil
    simp [baJoinOne, hf]

theorem baJoin_length {mapSrc : List BAMapRow}
    (h : (mapSrc.map BAMapRow.old_author_id).Nodup) :
    ∀ links : List BALinkRow, (baJoin links mapSrc).length = links.length
  | [] => rfl
  | l :: ls => by
    show ((baJoinOne mapSrc l) ++ baJoin ls mapSrc).length = ls.length + 1
    rw [List.length_append, baJoinOne_length h, baJoin_length h ls]
    omega

/-- C4: for the author-type link enrichment, provided the source's
mapping has a duplicate-free `old_author_id` column (the table's primary
key), every link row lands in exactly one of the incomplete / orphan /
enriched classes: their counts sum to the original row count. -/
theorem C4_enriched_incomplete_orphan_partition :
    ∀ (links : List BALinkRow) (mapSrc : List BAMapRow),
      (mapSrc.map BAMapRow.old_author_id).Nodup →
      baSkipped links + baOrphaned links mapSrc
          + (baEnriched links mapSrc).length = links.length := by
  intro links mapSrc h
  have hskip : baSkipped links =
      (links.filter (fun l => !(is_valid_id l.authorID))).length := by
    unfold baSkipped
    congr 1
    exact List.filter_congr (fun a _ => by
      cases hv : is_valid_id a.authorID <;> simp [hv])
  have hpart1 : links.length = (baValidLinks links).length + baSkipped links := by
    rw [hskip]
    exact List.length_eq_length_filter_add _
  have hjoin : (baJoin (baValidLinks links) mapSrc).length
      = (baValidLinks links).length := baJoin_length h _
  have henr : (baEnriched links mapSrc).length =
      ((baJoin (baValidLinks links) mapSrc).filter
        (fun p => !(decide (baJoinedNewId p = none)))).length := by
    unfold baEnriched
    congr 1
    exact List.filter_congr (fun p _ => by
      cases hv : baJoinedNewId p <;> simp [hv])
  have hpart2 : (baJoin (baValidLinks links) mapSrc).length
      = baOrphaned links mapSrc + (baEnriched links mapSrc).length := by
    rw [henr]
    unfold baOrphaned
    exact List.length_eq_length_filter_add _
  omega

/-- Witness for C4 at a concrete input: one incomplete (`NaN` foreign
key), one orphan (`"999"` unmapped) and one enriched link row sum to the
original three rows. -/
theorem C4_witness :
    baSkipped
        [{ bookAuthorID := some "L1", bookID := some "B1", authorID := none },
         { bookAuthorID := some "L2", bookID := some "B1", authorID := some "999" },
         { bookAuthorID := some "L3", bookID := some "B2", authorID := some "1" }]
      + baOrphaned
        [{ bookAuthorID := some "L1", bookID := some "B1", authorID := none },
         { bookAuthorID := some "L2", bookID := some "B1", authorID := some "999" },
         { bookAuthorID := some "L3", bookID := some "B2", authorID := some "1" }]
        [{ source_db := "db1", old_author_id := some "1",
           old_first_name := some "John", old_middle_name := none,
           old_last_name := some "Smith", key := "john|smith",
           new_book_author_id := some "uuid-w" }]
      + (baEnriched
        [{ bookAuthorID := some "L1", bookID := some "B1", authorID := none },
         { bookAuthorID := some "L2", bookID := some "B1", authorID := some "999" },
         { bookAuthorID := some "L3", bookID := some "B2", authorID := some "1" }]
        [{ source_db := "db1", old_author_id := some "1",
           old_first_name := some "John", old_middle_name := none,
           old_last_name := some "Smith", key := "john|smith",
           new_book_author_id := some "uuid-w" }]).length
      = 3 :=
  C4_enriched_incomplete_orphan_partition _ _ (by decide)

/-! ## Claim C9 -/

/-- Every record emitted by the topic dedup loop has a non-empty
normalized name. -/
theorem merge_topics_go_normalized_ne :
    ∀ (l : List (String × TopicRow)) (seen : List String),
      ∀ mt ∈ merge_topics_go seen l, mt.normalized_topic ≠ ""
  | [], _, mt, h => absurd h (List.not_mem_nil mt)
  | (src, r) :: rs, seen, mt, h => by
    rw [merge_topics_go] at h
    by_cases hc : normalize_topic_name r.topic ≠ "" ∧
        normalize_topic_name r.topic ∉ seen
    · rw [if_pos hc] at h
      rw [List.mem_cons] at h
      rcases h with h | h
      · rw [h]
        exact hc.1
      · exact merge_topics_go_normalized_ne rs _ mt h
    · rw [if_neg hc] at h
      exact merge_topics_go_normalized_ne rs _ mt h

/-- C9 (counterexample): the claim says no merge variant emits a mapping
row for a source row whose canonical key is entirely empty; but the
topic merge emits one mapping row for EVERY raw topic row, so an
all-whitespace topic name (normalized key `""`) still gets a mapping row
(with an empty canonical id), even though no canonical entity exists for
it. -/
theorem C9_counterexample_topic_mapping_row_for_empty_key :
    merge_and_deduplicate_topics [{ topicID := some "7", topic := some " " }] [] = [] ∧
    create_topic_id_mapping [{ topicID := some "7", topic := some " " }] [] []
      = [{ source_db := "db1", old_topic_id := some "7",
           old_topic_name := some " ", new_book_topic_id := "" }] := by
  refine ⟨by decide, by decide⟩

/-- C9 (amended): rows with an entirely empty canonical key produce no
canonical entity in any variant, and no mapping row in the author-type
merges; the topic merge, however, emits for them a mapping row whose
canonical id is the empty string. -/
theorem C9_amended_empty_key_exclusions :
    ∀ (a1 a2 : List AuthorRow) (draw : Nat → String)
      (t1 t2 : List TopicRow) (draw2 : Nat → String),
      (∀ m ∈ baMapping a1 a2 draw, m.key ≠ "|") ∧
      (∀ e ∈ baUniqueWithIds a1 a2 draw, e.1.key ≠ "|") ∧
      (∀ mt ∈ merge_and_deduplicate_topics t1 t2, mt.normalized_topic ≠ "") ∧
      (∀ mr ∈ create_topic_id_mapping t1 t2
          (topicNormToUuid (merge_and_deduplicate_topics t1 t2) draw2),
        normalize_topic_name mr.old_topic_name = "" →
          mr.new_book_topic_id = "") := by
  intro a1 a2 draw t1 t2 draw2
  have hproc : ∀ r ∈ baProcessed a1 a2, r.key ≠ "|" := by
    intro r hr
    rcases List.mem_append.1 hr with h | h <;>
      simpa using (List.mem_filter.1 h).2
  have hdict : ∀ k, k = "" →
      dictGet (topicNormToUuid (merge_and_deduplicate_topics t1 t2) draw2) k
        = none := by
    intro k hk
    subst hk
    unfold dictGet
    have hf : (topicNormToUuid (merge_and_deduplicate_topics t1 t2)
        draw2).reverse.find? (fun e => e.1 == "") = none := by
      rw [List.find?_eq_none]
      intro e he
      rw [List.mem_reverse] at he
      obtain ⟨p, hp, hpe⟩ := List.mem_map.1 he
      have hne : p.2.normalized_topic ≠ "" :=
        merge_topics_go_normalized_ne _ _ _ (List.snd_mem_of_mem_enum hp)
      rw [← hpe]
      simpa using hne
    rw [hf]
    rfl
  refine ⟨?_, ?_, merge_topics_go_normalized_ne _ _, ?_⟩
  · intro m hm
    obtain ⟨r, hr, hrm⟩ := List.mem_map.1 hm
    rw [← hrm]
    exact hproc r hr
  · intro e he
    obtain ⟨p, hp, hpe⟩ := List.mem_map.1 he
    rw [← hpe]
    exact hproc _ (dedupByKey_subset _ _ (List.snd_mem_of_mem_enum hp))
  · intro mr hmr hempty
    rcases List.mem_append.1 hmr with h | h <;>
    · obtain ⟨r, hr, hrm⟩ := List.mem_map.1 h
      rw [← hrm]
      show (dictGet _ (normalize_topic_name r.topic)).getD "" = ""
      have : normalize_topic_name r.topic = "" := by
        rw [← hrm] at hempty
        exact hempty
      rw [hdict _ this]
      rfl

/-- Witness for C9 at a concrete input: the topic mapping row emitted
for the all-whitespace topic name carries the empty canonical id. -/
theorem C9_witness :
    (TopicMapRow.mk "db1" (some "7") (some " ") "").new_book_topic_id = "" :=
  (C9_amended_empty_key_exclusions [] [] (fun _ => "u")
      [{ topicID := some "7", topic := some " " }] [] (fun _ => "u")).2.2.2
    (TopicMapRow.mk "db1" (some "7") (some " ") "") (by decide) (by decide)

/-! ## Claim C10 -/

/-- A merged paper row keeps the title and year of its group's first
member, which is one of the input rows. -/
theorem pmUnique_title_year {rows : List ProcPaper} {m : ProcPaper}
    (h : m ∈ pmUnique rows) : ∃ b ∈ rows, m.title = b.title ∧ m.year = b.year := by
  obtain ⟨k, _, hmerge⟩ := List.mem_filterMap.1 h
  cases hg : rows.filter (fun r => r.dedup_key == k) with
  | nil =>
    rw [hg] at hmerge
    exact absurd hmerge (by simp [merge_authors_for_duplicates])
  | cons base rest =>
    rw [hg] at hmerge
    have hbase : base ∈ rows := by
      have : base ∈ rows.filter (fun r => r.dedup_key == k) := by
        rw [hg]
        exact List.mem_cons_self _ _
      exact (List.mem_filter.1 this).1
    have hm : m = if rest = [] then base
        else { base with
          authors_ids := ((base :: rest).flatMap ProcPaper.authors_ids).dedup } := by
      have := hmerge
      rw [merge_authors_for_duplicates] at this
      exact (Option.some.inj this).symm
    refine ⟨base, hbase, ?_⟩
    by_cases hrest : rest = []
    · rw [hm, if_pos hrest]
      exact ⟨rfl, rfl⟩
    · rw [hm, if_neg hrest]
      exact ⟨rfl, rfl⟩

/-- Every accepted paper row has a title that is non-blank after
stripping. -/
theorem pmProcessed_title_nonblank {p1 p2 : List PaperRow}
    {lk1 lk2 : List (String × List String)} :
    ∀ b ∈ pmProcessed p1 p2 lk1 lk2, ∃ s, b.title = some s ∧ pyStrip s ≠ "" := by
  intro b hb
  have hone : ∀ (src : String) (lk : List (String × List String))
      (p : List PaperRow), b ∈ (pmAccept p).map (pmProc src lk) →
      ∃ s, b.title = some s ∧ pyStrip s ≠ "" := by
    intro src lk p hmem
    obtain ⟨raw, hraw, hrawb⟩ := List.mem_map.1 hmem
    have hflt := (List.mem_filter.1 hraw).2
    have hempty : pmEmptyTitle raw.title = false := by simpa using hflt
    cases ht : raw.title with
    | none =>
      rw [ht] at hempty
      simp [pmEmptyTitle] at hempty
    | some s =>
      refine ⟨s, ?_, ?_⟩
      · rw [← hrawb]
        exact ht
      · rw [ht] at hempty
        simp [pmEmptyTitle] at hempty
        exact hempty
  rcases List.mem_append.1 hb with h | h
  · exact hone "db1" lk1 p1 h
  · exact hone "db2" lk2 p2 h

/-- C10: in the papers and paper-authors merges, every canonical id is
generated through the content-addressed branch: the accepted rows'
filters (non-blank title; non-empty name key) make the
`fallback:(source, original id)` branch unreachable at id-assignment. -/
theorem C10_fallback_branch_unreachable :
    ∀ (p1 p2 : List PaperRow) (lk1 lk2 : List (String × List String))
      (pa1 pa2 : List PAuthorRow),
      (∀ r ∈ pmUnique (pmProcessed p1 p2 lk1 lk2),
        pyStrip (pyOrEmpty r.title) ≠ "" ∧
        generate_paper_uuid r = uuid5 NS_PAPERS
          ("title:" ++ pyLower (pyStrip (pyOrEmpty r.title)) ++ ":year:"
            ++ pyStrip (pyOrEmpty r.year))) ∧
      (∀ r ∈ paUnique pa1 pa2,
        (pyStrip r.final_last_name ≠ "" ∨ pyStrip r.final_first_name ≠ "") ∧
        generate_pauthor_uuid r = uuid5 NS_PAUTHORS
          ("lastname:" ++ pyStrip r.final_last_name ++ ":firstname:"
            ++ pyStrip r.final_first_name)) := by
  intro p1 p2 lk1 lk2 pa1 pa2
  constructor
  · intro r hr
    obtain ⟨b, hb, htitle, _⟩ := pmUnique_title_year hr
    obtain ⟨s, hbs, hsne⟩ := pmProcessed_title_nonblank b hb
    have hne : pyStrip (pyOrEmpty r.title) ≠ "" := by
      rw [htitle, hbs]
      exact hsne
    refine ⟨hne, ?_⟩
    rw [generate_paper_uuid, if_pos hne]
  · intro r hr
    have hrp : r ∈ paProcessed pa1 pa2 := dedupByKey_subset _ _ hr
    have hkey : r.key ≠ "|" := by
      rcases List.mem_append.1 hrp with h | h <;>
        simpa using (List.mem_filter.1 h).2
    have hshape : ∃ src raw, pa_process_names src raw = r := by
      rcases List.mem_append.1 hrp with h | h
      · obtain ⟨raw, _, hraw⟩ := List.mem_map.1 (List.mem_filter.1 h).1
        exact ⟨"db1", raw, hraw⟩
      · obtain ⟨raw, _, hraw⟩ := List.mem_map.1 (List.mem_filter.1 h).1
        exact ⟨"db2", raw, hraw⟩
    obtain ⟨src, raw, hraw⟩ := hshape
    have hor : pyStrip r.final_last_name ≠ "" ∨ pyStrip r.final_first_name ≠ "" := by
      by_contra hcon
      push_neg at hcon
      obtain ⟨hl, hf⟩ := hcon
      have hfin_l : r.final_last_name = clean_str raw.lastName := by
        rw [← hraw]
        rfl
      have hfin_f : r.final_first_name = clean_str raw.firstName := by
        rw [← hraw]
        rfl
      have hl0 : r.final_last_name = "" := by
        rw [hfin_l] at hl ⊢
        exact pyStrip_pyStrip_eq_empty hl
      have hf0 : r.final_first_name = "" := by
        rw [hfin_f] at hf ⊢
        exact pyStrip_pyStrip_eq_empty hf
      apply hkey
      have hkdef : r.key = pyLower r.final_first_name ++ "|"
          ++ pyLower r.final_last_name := by
        rw [← hraw]
        rfl
      rw [hkdef, hf0, hl0]
      decide
    refine ⟨hor, ?_⟩
    rw [generate_pauthor_uuid, if_pos hor]

/-- The concrete Scenario D paper row of db1. -/
def deepLearningRow : PaperRow :=
  { paperID := some "1", title := some "Deep Learning", year := some "2020" }

/-- Witness for C10 at a concrete input: the canonical id of the merged
"Deep Learning" paper is generated from the title branch. -/
theorem C10_witness :
    pyStrip (pyOrEmpty (pmProc "db1" [("1", ["a-id"])] deepLearningRow).title) ≠ "" ∧
    generate_paper_uuid (pmProc "db1" [("1", ["a-id"])] deepLearningRow)
      = uuid5 NS_PAPERS ("title:"
          ++ pyLower (pyStrip (pyOrEmpty (pmProc "db1" [("1", ["a-id"])] deepLearningRow).title))
          ++ ":year:"
          ++ pyStrip (pyOrEmpty (pmProc "db1" [("1", ["a-id"])] deepLearningRow).year)) :=
  (C10_fallback_branch_unreachable [deepLearningRow] [] [("1", ["a-id"])] [] [] []).1
    (pmProc "db1" [("1", ["a-id"])] deepLearningRow) (by decide)

/-! ## Claim C8 -/

/-- Shape of a successful group merge: the group is nonempty, the first
member is the base, and the result is the base with (for real duplicate
groups) the union of all members' author ids. -/
theorem merge_eq_some_shape {g : List ProcPaper} {m : ProcPaper}
    (hm : merge_authors_for_duplicates g = some m) :
    ∃ base rest, g = base :: rest ∧
      m = (if rest = [] then base
        else { base with
          authors_ids := ((base :: rest).flatMap ProcPaper.authors_ids).dedup }) := by
  cases g with
  | nil => exact absurd hm (by simp [merge_authors_for_duplicates])
  | cons base rest =>
    rw [merge_authors_for_duplicates] at hm
    exact ⟨base, rest, rfl, (Option.some.inj hm).symm⟩

/-- The ids of a merged group row are exactly the ids occurring in some
group member. -/
theorem merge_mem_ids_iff {g : List ProcPaper} {m : ProcPaper}
    (hm : merge_authors_for_duplicates g = some m) :
    ∀ s, s ∈ m.authors_ids ↔ ∃ r ∈ g, s ∈ r.authors_ids := by
  obtain ⟨base, rest, hg, hmeq⟩ := merge_eq_some_shape hm
  subst hg
  intro s
  by_cases hrest : rest = []
  · subst hrest
    rw [hmeq]
    simp
  · rw [hmeq, if_neg hrest]
    simp only [List.mem_dedup, List.mem_flatMap]

/-- The merged group row carries no duplicate author id (given that the
per-row id lists are duplicate-free, as `build_author_lookup` produces
them). -/
theorem merge_nodup_ids {g : List ProcPaper} {m : ProcPaper}
    (hg : ∀ r ∈ g, r.authors_ids.Nodup)
    (hm : merge_authors_for_duplicates g = some m) : m.authors_ids.Nodup := by
  obtain ⟨base, rest, hgeq, hmeq⟩ := merge_eq_some_shape hm
  subst hgeq
  by_cases hrest : rest = []
  · rw [hmeq, if_pos hrest]
    exact hg base (List.mem_cons_self _ _)
  · rw [hmeq, if_neg hrest]
    exact List.nodup_dedup _

/-- A member of `pmUnique rows` is the merge of exactly its own dedup
group. -/
theorem pmUnique_group {rows : List ProcPaper} {m : ProcPaper}
    (h : m ∈ pmUnique rows) :
    merge_authors_for_duplicates
      (rows.filter (fun r => r.dedup_key == m.dedup_key)) = some m := by
  obtain ⟨k, _, hmerge⟩ := List.mem_filterMap.1 h
  obtain ⟨base, rest, hgeq, hmeq⟩ := merge_eq_some_shape hmerge
  have hbase : base ∈ rows.filter (fun r => r.dedup_key == k) := by
    rw [hgeq]
    exact List.mem_cons_self _ _
  have hbk : base.dedup_key = k := eq_of_beq (List.mem_filter.1 hbase).2
  have hmk : m.dedup_key = k := by
    by_cases hrest : rest = []
    · rw [hmeq, if_pos hrest]
      exact hbk
    · rw [hmeq, if_neg hrest]
      exact hbk
  rw [hmk]
  exact hmerge

/-- Membership in a merged row's id array, characterised over the whole
input list. -/
theorem pmUnique_mem_ids_iff {rows : List ProcPaper} {m : ProcPaper}
    (hm : m ∈ pmUnique rows) :
    ∀ s, s ∈ m.authors_ids ↔
      ∃ r ∈ rows, r.dedup_key = m.dedup_key ∧ s ∈ r.authors_ids := by
  intro s
  rw [merge_mem_ids_iff (pmUnique_group hm) s]
  constructor
  · rintro ⟨r, hr, hs⟩
    obtain ⟨hrr, hrk⟩ := List.mem_filter.1 hr
    exact ⟨r, hrr, eq_of_beq hrk, hs⟩
  · rintro ⟨r, hrr, hrk, hs⟩
    exact ⟨r, List.mem_filter.2 ⟨hrr, by rw [hrk]; exact beq_self_eq_true _⟩, hs⟩

/-- C8 (amended): a merged canonical paper's author-id array is
duplicate-free and holds exactly the union of the canonical author ids
of every member of its dedup group (not only the winner); the array's
CONTENT — the set of ids — is invariant under any permutation of the
input rows.  The element ORDER of the array is not: Python materialises
it from a `set`, whose enumeration order is implementation-defined (see
the C8 counterexample), so only the content-level guarantees hold. -/
theorem C8_merged_author_ids_are_group_union :
    ∀ (rows rows2 : List ProcPaper),
      (∀ r ∈ rows, r.authors_ids.Nodup) →
      ∀ m ∈ pmUnique rows,
        m.authors_ids.Nodup ∧
        (∀ s, s ∈ m.authors_ids ↔
          ∃ r ∈ rows, r.dedup_key = m.dedup_key ∧ s ∈ r.authors_ids) ∧
        (rows.Perm rows2 → ∀ m2 ∈ pmUnique rows2,
          m2.dedup_key = m.dedup_key →
            m2.authors_ids.toFinset = m.authors_ids.toFinset) := by
  intro rows rows2 hnd m hm
  refine ⟨?_, pmUnique_mem_ids_iff hm, ?_⟩
  · exact merge_nodup_ids
      (fun r hr => hnd r (List.mem_filter.1 hr).1) (pmUnique_group hm)
  · intro hperm m2 hm2 hk2
    ext a
    simp only [List.mem_toFinset]
    rw [pmUnique_mem_ids_iff hm2 a, pmUnique_mem_ids_iff hm a]
    constructor
    · rintro ⟨r, hr, hk, hs⟩
      exact ⟨r, hperm.mem_iff.2 hr, by rw [hk, hk2], hs⟩
    · rintro ⟨r, hr, hk, hs⟩
      exact ⟨r, hperm.mem_iff.1 hr, by rw [hk, hk2], hs⟩

/-- The Scenario D paper rows, processed, as dedup-group members from
the two sources. -/
def c8Row1 : ProcPaper :=
  { source_db := "db1", paperID := some "1", title := some "Deep Learning"
    year := some "2020", authors_ids := ["a1"]
    dedup_key := "deep learning|2020" }

def c8Row2 : ProcPaper :=
  { source_db := "db2", paperID := some "9", title := some "deep learning"
    year := some "2020", authors_ids := ["a2"]
    dedup_key := "deep learning|2020" }

/-- C8 (counterexample): the claim as stated says any permutation of
the input rows yields the same ARRAY.  It does not: permuting the two
Scenario D rows permutes the merged array.  The embedding enumerates the
Python `set` union in group order (one realisation of its
implementation-defined enumeration); under it the arrays `["a1", "a2"]`
and `["a2", "a1"]` are produced from permuted inputs, equal as sets but
different as arrays — and CPython's `list(set(...))` guarantees nothing
stronger. -/
theorem C8_counterexample_array_order_depends_on_row_order :
    List.Perm [c8Row1, c8Row2] [c8Row2, c8Row1] ∧
    (pmUnique [c8Row1, c8Row2]).map ProcPaper.authors_ids = [["a1", "a2"]] ∧
    (pmUnique [c8Row2, c8Row1]).map ProcPaper.authors_ids = [["a2", "a1"]] ∧
    (["a1", "a2"] : List String) ≠ ["a2", "a1"] := by
  refine ⟨by decide, by decide, by decide, by decide⟩

/-- Witness for C8 at the Scenario D input: the merged paper's array is
duplicate-free and contains the id contributed by the non-winning db2
member. -/
theorem C8_witness :
    (ProcPaper.mk "db1" (some "1") (some "Deep Learning") (some "2020")
        ["a1", "a2"] "deep learning|2020").authors_ids.Nodup ∧
    ("a2" ∈ (ProcPaper.mk "db1" (some "1") (some "Deep Learning") (some "2020")
        ["a1", "a2"] "deep learning|2020").authors_ids ↔
      ∃ r ∈ [c8Row1, c8Row2],
        r.dedup_key = (ProcPaper.mk "db1" (some "1") (some "Deep Learning")
          (some "2020") ["a1", "a2"] "deep learning|2020").dedup_key ∧
        "a2" ∈ r.authors_ids) := by
  have h := C8_merged_author_ids_are_group_union [c8Row1, c8Row2] [c8Row1, c8Row2]
    (by decide)
    (ProcPaper.mk "db1" (some "1") (some "Deep Learning") (some "2020")
      ["a1", "a2"] "deep learning|2020") (by decide)
  exact ⟨h.1, h.2.1 "a2"⟩

/-! ## Claim C6, amended -/

/-- `baJoinOne` only produces pairs whose link component is the joined
link row itself. -/
theorem baJoinOne_fst {mapSrc : List BAMapRow} {l : BALinkRow}
    {p : BALinkRow × Option BAMapRow} (h : p ∈ baJoinOne mapSrc l) :
    p.1 = l := by
  unfold baJoinOne at h
  cases hf : mapSrc.filter (fun m => m.old_author_id == l.authorID) with
  | nil =>
    rw [hf] at h
    rw [List.mem_singleton] at h
    rw [h]
  | cons m ms =>
    rw [hf] at h
    obtain ⟨m', _, hm'⟩ := List.mem_map.1 h
    rw [← hm']

/-- C6 (amended): the pre-lookup sentinels are null/NaN, blank-after-
strip, and the case-insensitive string `"nan"` in the author-type merges
(the topic merge tests the exact string `"nan"` instead); strings such
as `"none"` or `"null"` are not sentinels.  The sentinel filter runs
before the mapping lookup: the skipped rows and the surviving rows
partition the input, and every row that reaches the join passed the
filter. -/
theorem C6_amended_sentinel_prefilter :
    ∀ (v : Option String) (links : List BALinkRow) (mapSrc : List BAMapRow),
      (is_valid_id v = false ↔
        (v = none ∨ ∃ s, v = some s ∧
          (pyStrip s = "" ∨ pyLower (pyStrip s) = "nan"))) ∧
      (btIncomplete v = true ↔
        (v = none ∨ ∃ s, v = some s ∧ (pyStrip s = "" ∨ s = "nan"))) ∧
      (baSkipped links + (baValidLinks links).length = links.length) ∧
      (∀ p ∈ baJoin (baValidLinks links) mapSrc,
        is_valid_id p.1.authorID = true) := by
  intro v links mapSrc
  refine ⟨?_, ?_, ?_, ?_⟩
  · cases v with
    | none => simp [is_valid_id]
    | some s =>
      simp [is_valid_id]
      tauto
  · cases v with
    | none => simp [btIncomplete]
    | some s =>
      simp [btIncomplete, pyAstype]
  · have hskip : baSkipped links =
        (links.filter (fun l => !(is_valid_id l.authorID))).length := by
      unfold baSkipped
      congr 1
      exact List.filter_congr (fun a _ => by
        cases hv : is_valid_id a.authorID <;> simp [hv])
    have hpart1 : links.length = (baValidLinks links).length +
        (links.filter (fun l => !(is_valid_id l.authorID))).length :=
      List.length_eq_length_filter_add _
    rw [hskip]
    omega
  · intro p hp
    obtain ⟨l, hl, hpl⟩ := List.mem_flatMap.1 hp
    have : p.1 = l := baJoinOne_fst hpl
    rw [this]
    simpa using (List.mem_filter.1 hl).2

/-- Witness for C6 at concrete inputs: `"NaN"` is a sentinel for the
author merges, the exact `"nan"` is one for the topic merge. -/
theorem C6_witness :
    is_valid_id (some "NaN") = false ∧ btIncomplete (some "nan") = true := by
  constructor
  · exact (C6_amended_sentinel_prefilter (some "NaN") [] []).1.mpr
      (Or.inr ⟨"NaN", rfl, Or.inr (by decide)⟩)
  · exact (C6_amended_sentinel_prefilter (some "nan") [] []).2.1.mpr
      (Or.inr ⟨"nan", rfl, Or.inr rfl⟩)
